import Mathlib

/-!
# wdid: task store and stand-up report

A shallow embedding of `repo.go` (the SQL task repository) and of
`cmd/wdid/main.go` (`genStandup`, `stringSliceToInt64`), followed by the
properties proved about them.

Conventions of the embedding:

* `time.Time` is an instant (nanoseconds since the Unix epoch) together with a
  location; a location is a fixed offset east of UTC in seconds, as produced by
  `time.FixedZone`.  Zones with transitions are outside the model.
* The `tasks` table is a list of rows in rowid order plus the AUTOINCREMENT
  high-water mark.  The driver (go-sqlite3) writes a `time.Time` as text in the
  layout `2006-01-02 15:04:05.999999999-07:00`, SQLite compares such values as
  byte strings, and the driver parses the text when a row is read.  A DATETIME
  cell is represented by the `time.Time` that was bound when it was written:
  `sqliteText` is the text actually stored, and `sqliteScan` the value a query
  reads back.  SQL conditions are evaluated in three-valued logic.
* A Go call ends in one of three ways: it returns a value with a nil error, it
  returns a non-nil error, or it panics.  The error a database statement may
  report is an explicit argument of the operation that runs the statement.
-/

namespace Wdid

/-! ## Library model: proleptic Gregorian calendar -/

/-- Civil date `(year, month, day)` of a day number counted from 1970-01-01. -/
def civilFromDays (z : Int) : Int × Int × Int :=
  let z1 := z + 719468
  let era := z1 / 146097
  let doe := z1 - era * 146097
  let yoe := (doe - doe / 1460 + doe / 36524 - doe / 146096) / 365
  let doy := doe - (365 * yoe + yoe / 4 - yoe / 100)
  let mp := (5 * doy + 2) / 153
  let d := doy - (153 * mp + 2) / 5 + 1
  let m := if mp < 10 then mp + 3 else mp - 9
  let y := yoe + era * 400
  (if m ≤ 2 then y + 1 else y, m, d)

/-- Day number, counted from 1970-01-01, of a civil date; linear in `d`, so a
day outside the month overflows into the neighbouring months. -/
def daysFromCivil (y m d : Int) : Int :=
  let y1 := if m ≤ 2 then y - 1 else y
  let era := y1 / 400
  let yoe := y1 - era * 400
  let mp := if m > 2 then m - 3 else m + 9
  let doy := (153 * mp + 2) / 5 + d - 1
  let doe := yoe * 365 + yoe / 4 - yoe / 100 + doy
  era * 146097 + doe - 719468

/-! ## Library model: `time.Time` -/

/-- Go `time.Time`: an instant and a location (fixed offset east of UTC, in
seconds). -/
structure Time where
  ns : Int
  offset : Int
deriving DecidableEq, Repr

/-- Nanoseconds in a second (`time.Second`). -/
def Second : Int := 1000000000

/-- Nanoseconds in an hour (`time.Hour`). -/
def Hour : Int := 3600 * Second

/-- Nanoseconds in a civil day. -/
def nsPerDay : Int := 86400 * Second

/-- Wall-clock reading of `t` in its own location, in nanoseconds since the
local 1970-01-01 00:00. -/
def Time.localNs (t : Time) : Int := t.ns + t.offset * Second

/-- Day number of `t` in its own location. -/
def Time.dayNumber (t : Time) : Int := t.localNs / nsPerDay

/-- Go `t.Date()`. -/
def Time.Date (t : Time) : Int × Int × Int := civilFromDays t.dayNumber

/-- Go `t.Location()`. -/
def Time.Location (t : Time) : Int := t.offset

/-- Go `t.Year()`. -/
def Time.Year (t : Time) : Int := t.Date.1

/-- Go `t.YearDay()`: 1 for January 1st. -/
def Time.YearDay (t : Time) : Int := t.dayNumber - daysFromCivil t.Year 1 1 + 1

/-- Go `t.Weekday()`: 0 is Sunday. -/
def Time.Weekday (t : Time) : Int := (t.dayNumber + 4) % 7

/-- Go `t.Clock()`: hour, minute and second within the day. -/
def Time.Clock (t : Time) : Int × Int × Int :=
  let s := (t.localNs / Second) % 86400
  (s / 3600, (s % 3600) / 60, s % 60)

/-- Go `t.Nanosecond()`. -/
def Time.Nanosecond (t : Time) : Int := t.localNs % Second

/-- Go `t.Add(d)`. -/
def Time.Add (t : Time) (d : Int) : Time := ⟨t.ns + d, t.offset⟩

/-- Go `time.Date(year, month, day, hour, min, sec, nsec, loc)`; values outside
their usual ranges are normalised by carrying into the next unit. -/
def timeDate (year month day hour min sec nsec loc : Int) : Time :=
  let m := month - 1
  let year := year + m / 12
  let month := m % 12 + 1
  let days := daysFromCivil year month day
  ⟨(days * 86400 + hour * 3600 + min * 60 + sec - loc) * Second + nsec, loc⟩

/-! ## `repo.go`: day bounds -/

/-- Go `beginningOfDay`. -/
def beginningOfDay (t : Time) : Time :=
  let (y, m, d) := t.Date
  timeDate y m d 0 0 0 0 t.Location

/-- Go `endOfDay`; the nanosecond argument is `time.Second - time.Nanosecond`. -/
def endOfDay (t : Time) : Time :=
  let (y, m, d) := t.Date
  timeDate y m d 23 59 59 (Second - 1) t.Location

/-! ## Library model: `time.Time.Format` -/

/-- Go `appendInt` of package time: decimal digits of `x`, zero padded to
`width`, with a leading minus sign for a negative number. -/
def appendInt (x : Int) (width : Nat) : String :=
  let digits := toString x.natAbs
  (if x < 0 then "-" else "") ++ String.mk (List.replicate (width - digits.length) '0') ++ digits

/-- Go `shortDayNames`. -/
def shortDayNames : List String := ["Sun", "Mon", "Tue", "Wed", "Thu", "Fri", "Sat"]

/-- Go `shortMonthNames`. -/
def shortMonthNames : List String :=
  ["Jan", "Feb", "Mar", "Apr", "May", "Jun", "Jul", "Aug", "Sep", "Oct", "Nov", "Dec"]

/-- Go `t.Format("Mon Jan 2, 2006")`. -/
def Time.FormatMonJan2 (t : Time) : String :=
  let (y, m, d) := t.Date
  shortDayNames.getD t.Weekday.toNat "" ++ " " ++ shortMonthNames.getD (m - 1).toNat "" ++ " "
    ++ appendInt d 0 ++ ", " ++ appendInt y 4

/-- Go `t.Format("2006-01-02")`. -/
def Time.FormatISODate (t : Time) : String :=
  let (y, m, d) := t.Date
  appendInt y 4 ++ "-" ++ appendInt m 2 ++ "-" ++ appendInt d 2

/-! ## Library model: timestamps as go-sqlite3 stores and reads them -/

/-- Go `appendNano` for the layout element `.999999999`: nothing for zero
nanoseconds, otherwise a dot and nine digits without their trailing zeros. -/
def appendNano (nsec : Int) : String :=
  if nsec = 0 then ""
  else "." ++ String.mk ((appendInt nsec 9).data.reverse.dropWhile (· == '0')).reverse

/-- Go formatting of the layout element `-07:00`: the offset truncated to whole
minutes, as sign, hours and minutes. -/
def zoneText (offset : Int) : String :=
  let zone := Int.tdiv offset 60
  (if zone < 0 then "-" else "+") ++ appendInt (zone.natAbs / 60 : Nat) 2 ++ ":"
    ++ appendInt (zone.natAbs % 60 : Nat) 2

/-- Date part of the stored text, layout `2006-01-02`. -/
def dateText (y m d : Int) : String :=
  appendInt y 4 ++ "-" ++ appendInt m 2 ++ "-" ++ appendInt d 2

/-- Clock part of the stored text, layout `15:04:05.999999999`. -/
def clockText (h mi s nsec : Int) : String :=
  appendInt h 2 ++ ":" ++ appendInt mi 2 ++ ":" ++ appendInt s 2 ++ appendNano nsec

/-- The text go-sqlite3 stores for a bound `time.Time`:
`t.Format("2006-01-02 15:04:05.999999999-07:00")`. -/
def sqliteText (t : Time) : String :=
  let (y, m, d) := t.Date
  let (h, mi, s) := t.Clock
  dateText y m d ++ " " ++ clockText h mi s t.Nanosecond ++ zoneText t.offset

/-- Go zero `time.Time{}`: January 1 of year 1, 00:00:00 UTC. -/
def zeroTime : Time := ⟨-62135596800 * Second, 0⟩

/-- The `time.Time` go-sqlite3 returns for the cell written from `t`: the text
parses with year, month, day, clock and nanoseconds as written and a zone of
the written whole minutes.  A year outside 0000..9999 or a zone beyond 24 hours
does not parse with any of the driver's layouts, and the driver then returns the
zero time. -/
def sqliteScan (t : Time) : Time :=
  let (y, m, d) := t.Date
  let (h, mi, s) := t.Clock
  let zone := Int.tdiv t.offset 60
  if 0 ≤ y ∧ y ≤ 9999 ∧ zone.natAbs / 60 ≤ 24 then
    timeDate y m d h mi s t.Nanosecond (zone * 60)
  else zeroTime

/-- The `k` decimal digits of `n`, most significant first. -/
def digitsFixed : Nat → Nat → List Char
  | 0, _ => []
  | k + 1, n => digitsFixed k (n / 10) ++ [Char.ofNat (48 + n % 10)]

/-- SQLite comparison of two TEXT values under the BINARY collation: byte by
byte, a proper prefix first.  `textLe a b` is `a <= b`.  The stored texts are
ASCII, so a character is one byte. -/
def textLe : List Char → List Char → Bool
  | [], _ => true
  | _ :: _, [] => false
  | a :: as, b :: bs =>
    if a.toNat < b.toNat then true
    else if b.toNat < a.toNat then false
    else textLe as bs

/-- The stored text of `c` lies, in byte order, between the stored texts of
`start` and `stop`. -/
def textBetween (start stop c : Time) : Prop :=
  textLe (sqliteText start).data (sqliteText c).data = true ∧
  textLe (sqliteText c).data (sqliteText stop).data = true

instance (start stop c : Time) : Decidable (textBetween start stop c) := by
  unfold textBetween; infer_instance

/-- Timestamps that the stored text gives back unchanged: a zone of whole
minutes within 24 hours of UTC and a year in 0000..9999. -/
def Time.Storable (t : Time) : Prop :=
  t.offset % 60 = 0 ∧ -86400 ≤ t.offset ∧ t.offset ≤ 86400 ∧ 0 ≤ t.Year ∧ t.Year ≤ 9999

instance (t : Time) : Decidable t.Storable := by
  unfold Time.Storable; infer_instance

/-! ## `repo.go`: data model -/

/-- Go `Task`; `CompletedAt` is an `sql.NullTime`, `none` when not valid. -/
structure Task where
  ID : Nat
  Description : String
  CreatedAt : Time
  CompletedAt : Option Time
deriving DecidableEq, Repr

/-- The `tasks` table: its rows in rowid order and the largest rowid ever
handed out by `INTEGER PRIMARY KEY AUTOINCREMENT`.  The timestamps of a row are
the values bound when the row was written; the stored text is `sqliteText` of
them. -/
structure DB where
  rows : List Task
  seq : Nat
deriving DecidableEq, Repr

/-- Table invariant of `id INTEGER PRIMARY KEY AUTOINCREMENT`: ids are unique and
none exceeds the high-water mark. -/
def DB.WF (db : DB) : Prop :=
  (db.rows.map Task.ID).Nodup ∧ ∀ t ∈ db.rows, t.ID ≤ db.seq

/-- The table right after `initDB` on a fresh database. -/
def DB.empty : DB := ⟨[], 0⟩

/-- How a Go call ends: with a value and a nil error, with a non-nil error, or
by panicking. -/
inductive Outcome (α : Type) where
  | ok (a : α)
  | error (err : String)
  | panic (err : String)
deriving DecidableEq, Repr

/-! ## Library model: SQL conditions -/

/-- SQL `a >= b` on nullable TEXT values. -/
def sqlGe (a b : Option String) : Option Bool :=
  match a, b with
  | some x, some y => some (textLe y.data x.data)
  | _, _ => none

/-- SQL `a <= b` on nullable TEXT values. -/
def sqlLe (a b : Option String) : Option Bool :=
  match a, b with
  | some x, some y => some (textLe x.data y.data)
  | _, _ => none

/-- SQL `AND`. -/
def sqlAnd : Option Bool → Option Bool → Option Bool
  | some false, _ => some false
  | _, some false => some false
  | some true, some true => some true
  | _, _ => none

/-- SQL `OR`. -/
def sqlOr : Option Bool → Option Bool → Option Bool
  | some true, _ => some true
  | _, some true => some true
  | some false, some false => some false
  | _, _ => none

/-- SQL `a IS NULL`. -/
def sqlIsNull (a : Option Time) : Option Bool := some a.isNone

/-- SQL `a IS NOT NULL`. -/
def sqlIsNotNull (a : Option Time) : Option Bool := some a.isSome

/-- SQL `id IN (ids)` for a non-null id. -/
def sqlIn (id : Nat) (ids : List Int) : Option Bool := some (decide ((id : Int) ∈ ids))

/-- A row is selected when its WHERE condition is true (neither false nor
NULL). -/
def sqlSelected (c : Option Bool) : Bool := c == some true

/-- Library model: `sqlx.In` expands a slice argument into one placeholder per
element and rejects an empty slice. -/
def sqlxIn (ids : List Int) : Except String (List Int) :=
  if ids.isEmpty then .error "empty slice passed to 'in' query" else .ok ids

/-! ## `repo.go`: operations -/

/-- Go `SQLRepository.AddTask`; `dbErr` is the error of `db.Exec`, if any.  The
new row keeps the bound `CreatedAt` and `CompletedAt`, which stand for the texts
`sqliteText` written from them; queries compare those texts and return the row
through `scanRow`. -/
def AddTask (db : DB) (t : Task) (dbErr : Option String) : DB × Outcome Unit :=
  match dbErr with
  | some err => (db, .error ("could not create task: " ++ err))
  | none =>
    ({ rows := db.rows ++ [{ t with ID := db.seq + 1 }], seq := db.seq + 1 }, .ok ())

/-- A row as a query returns it: each timestamp parsed back from its stored
text. -/
def scanRow (row : Task) : Task :=
  { row with CreatedAt := sqliteScan row.CreatedAt,
             CompletedAt := row.CompletedAt.map sqliteScan }

/-- WHERE clause of `TasksForDate`; `start` and `stop` are the bound values, the
columns hold text. -/
def tasksForDateWhere (start stop : Time) (t : Task) : Option Bool :=
  let created_at := some (sqliteText t.CreatedAt)
  let completed_at := t.CompletedAt.map sqliteText
  sqlOr
    (sqlAnd (sqlGe created_at (some (sqliteText start)))
      (sqlLe created_at (some (sqliteText stop))))
    (sqlAnd (sqlGe completed_at (some (sqliteText start)))
      (sqlLe completed_at (some (sqliteText stop))))

/-- `ORDER BY completed_at NULLS LAST, created_at` on the stored text: `a` sorts
no later than `b`. -/
def tasksForDateOrder (a b : Task) : Bool :=
  let created := textLe (sqliteText a.CreatedAt).data (sqliteText b.CreatedAt).data
  match a.CompletedAt, b.CompletedAt with
  | some x, some y =>
    if sqliteText x = sqliteText y then created
    else textLe (sqliteText x).data (sqliteText y).data
  | some _, none => true
  | none, some _ => false
  | none, none => created

/-- Go `SQLRepository.TasksForDate`; `dbErr` is the error of `PrepareNamed` or
of `Select`, if any. -/
def TasksForDate (db : DB) (t : Time) (dbErr : Option String) : Except String (List Task) :=
  let start := beginningOfDay t
  let stop := endOfDay t
  match dbErr with
  | some err => .error ("error fetching tasks: " ++ err)
  | none =>
    .ok (((db.rows.filter fun task => sqlSelected (tasksForDateWhere start stop task)).insertionSort
      fun a b => tasksForDateOrder a b = true).map scanRow)

/-- WHERE clause of `PendingTasks`. -/
def pendingWhere (t : Task) : Option Bool :=
  sqlAnd (sqlIsNotNull (some t.CreatedAt)) (sqlIsNull t.CompletedAt)

/-- Go `SQLRepository.PendingTasks`; `dbErr` is the error of `Select`, if any. -/
def PendingTasks (db : DB) (dbErr : Option String) : Except String (List Task) :=
  match dbErr with
  | some err => .error err
  | none => .ok ((db.rows.filter fun task => sqlSelected (pendingWhere task)).map scanRow)

/-- The UPDATE of `CompleteTasks` applied to one row. -/
def completeRow (now : Time) (ids : List Int) (t : Task) : Task :=
  if sqlSelected (sqlAnd (sqlIn t.ID ids) (sqlIsNull t.CompletedAt)) then
    { t with CompletedAt := some now }
  else t

/-- Go `SQLRepository.CompleteTasks`; `now` is the reading of `time.Now()`, bound
to `:time`, and `dbErr` the error of the UPDATE statement, if any, which
`MustExec` turns into a panic. -/
def CompleteTasks (db : DB) (now : Time) (ids : List Int) (dbErr : Option String) :
    DB × Outcome Unit :=
  match sqlxIn ids with
  | .error err => (db, .error err)
  | .ok args =>
    match dbErr with
    | some err => (db, .panic err)
    | none => ({ db with rows := db.rows.map (completeRow now args) }, .ok ())

/-- Go `SQLRepository.DeleteTasks`; `dbErr` is the error of the DELETE statement,
if any, which `MustExec` turns into a panic. -/
def DeleteTasks (db : DB) (ids : List Int) (dbErr : Option String) : DB × Outcome Unit :=
  match sqlxIn ids with
  | .error err => (db, .error err)
  | .ok args =>
    match dbErr with
    | some err => (db, .panic err)
    | none =>
      ({ db with rows := db.rows.filter fun t => !sqlSelected (sqlIn t.ID args) }, .ok ())

/-! ## `cmd/wdid/main.go` -/

/-- Go `TaskRepository`, restricted to the two query methods `genStandup`
calls; each returns its task list or its error. -/
structure TaskRepository where
  TasksForDate : Time → Except String (List Task)
  PendingTasks : Except String (List Task)

/-- The `SQLRepository` over table `db` seen through the interface; `dbErr` is
the error, if any, the database reports for its queries. -/
def sqlRepository (db : DB) (dbErr : Option String) : TaskRepository where
  TasksForDate := fun t => Wdid.TasksForDate db t dbErr
  PendingTasks := Wdid.PendingTasks db dbErr

/-- Body of the loop over `y_tasks` in `genStandup`. -/
def yesterdayStep (buf : String) (task : Task) : String :=
  match task.CompletedAt with
  | none => buf ++ "- [STARTED] " ++ task.Description ++ " (" ++ toString task.ID ++ ")\n"
  | some complete =>
    let started := task.CreatedAt
    if complete.Year = started.Year ∧ complete.YearDay = started.YearDay then
      buf ++ "- " ++ task.Description ++ " (" ++ toString task.ID ++ ")\n"
    else
      buf ++ "- [COMPLETED] " ++ task.Description ++ " (" ++ toString task.ID ++ ")\n"

/-- Body of the loop over `t_tasks` in `genStandup`. -/
def todayStep (buf : String) (task : Task) : String :=
  buf ++ "- " ++ task.Description ++ " (" ++ toString task.ID ++ ")\n"

/-- Body of the loop over `p_tasks` in `genStandup`. -/
def pendingStep (buf : String) (task : Task) : String :=
  let fmt_date := task.CreatedAt.FormatISODate
  buf ++ "- " ++ task.Description ++ " (" ++ toString task.ID ++ "; started on " ++ fmt_date
    ++ ")\n"

/-- Go `genStandup`; `now` is the reading of `time.Now()`.  The result is the
returned string and the returned error (`none` for nil). -/
def genStandup (r : TaskRepository) (now : Time) : String × Option String :=
  let today := now
  let y := today.Add (Hour * -24)
  match r.TasksForDate y with
  | .error err => ("", some err)
  | .ok y_tasks =>
    match r.TasksForDate today with
    | .error err => ("", some err)
    | .ok t_tasks =>
      let buf := ""
      let buf :=
        if y_tasks.length > 0 then buf ++ "## Yesterday (" ++ y.FormatMonJan2 ++ ")\n" else buf
      let buf := y_tasks.foldl yesterdayStep buf
      let buf :=
        if t_tasks.length > 0 then
          let buf := if y_tasks.length > 0 then buf ++ "\n\n" else buf
          buf ++ "## Today\n"
        else buf
      let buf := t_tasks.foldl todayStep buf
      match r.PendingTasks with
      | .error err => ("nil", some err)
      | .ok p_tasks =>
        let buf :=
          if p_tasks.length > 0 then
            let buf := if y_tasks.length > 0 ∨ t_tasks.length > 0 then buf ++ "\n\n" else buf
            let buf := buf ++ "## TODO\n"
            p_tasks.foldl pendingStep buf
          else buf
        (buf, none)

/-- Library model: the digits loop of `strconv.ParseUint` in base 10. -/
def parseDigits (cs : List Char) : Option Nat :=
  cs.foldl
    (fun acc c =>
      match acc with
      | none => none
      | some n => if c.isDigit then some (n * 10 + (c.toNat - 48)) else none)
    (some 0)

/-- Library model: `strconv.ParseInt(s, 10, 64)`; `none` stands for a non-nil
error (bad syntax or a value outside int64). -/
def ParseInt (s : String) : Option Int :=
  let cs := s.toList
  let signed : Bool × List Char :=
    match cs with
    | '+' :: rest => (false, rest)
    | '-' :: rest => (true, rest)
    | _ => (false, cs)
  if signed.2.isEmpty then none
  else
    match parseDigits signed.2 with
    | none => none
    | some un =>
      if signed.1 then (if un > 2 ^ 63 then none else some (-(un : Int)))
      else if un ≥ 2 ^ 63 then none
      else some (un : Int)

/-- Go `stringSliceToInt64`. -/
def stringSliceToInt64 (strs : List String) : List Int :=
  strs.foldl
    (fun ids s =>
      match ParseInt s with
      | some id => ids ++ [id]
      | none => ids)
    []

/-! ## The report as the specification words it

These definitions follow the prose of the specification (section 4.2); the
theorems below compare them with `genStandup`. -/

/-- Concatenation of lines, in order. -/
def concatLines : List String → String
  | [] => ""
  | l :: ls => l ++ concatLines ls

/-- Spec: `completedAt` falls on the same calendar day as `createdAt` (same year
and same day of year). -/
def sameCalendarDay (completedAt createdAt : Time) : Prop :=
  completedAt.Year = createdAt.Year ∧ completedAt.YearDay = createdAt.YearDay

instance (a b : Time) : Decidable (sameCalendarDay a b) := by
  unfold sameCalendarDay; infer_instance

/-- Spec, step 3: the line of one task of the Yesterday section. -/
def specYesterdayLine (t : Task) : String :=
  match t.CompletedAt with
  | none => "- [STARTED] " ++ t.Description ++ " (" ++ toString t.ID ++ ")\n"
  | some c =>
    if sameCalendarDay c t.CreatedAt then "- " ++ t.Description ++ " (" ++ toString t.ID ++ ")\n"
    else "- [COMPLETED] " ++ t.Description ++ " (" ++ toString t.ID ++ ")\n"

/-- Spec, step 4: the line of one task of the Today section. -/
def specTodayLine (t : Task) : String :=
  "- " ++ t.Description ++ " (" ++ toString t.ID ++ ")\n"

/-- Spec, step 5: the line of one task of the TODO section. -/
def specTodoLine (t : Task) : String :=
  "- " ++ t.Description ++ " (" ++ toString t.ID ++ "; started on "
    ++ t.CreatedAt.FormatISODate ++ ")\n"

/-- Spec, step 3: the Yesterday block, present iff `yList` is non-empty. -/
def specYesterdayBlock (yesterday : Time) (yList : List Task) : String :=
  if yList = [] then ""
  else "## Yesterday (" ++ yesterday.FormatMonJan2 ++ ")\n"
    ++ concatLines (yList.map specYesterdayLine)

/-- Spec, step 4: the Today block, present iff `tList` is non-empty, preceded by
two blank lines iff the Yesterday block is present. -/
def specTodayBlock (yList tList : List Task) : String :=
  if tList = [] then ""
  else (if yList = [] then "" else "\n\n") ++ "## Today\n"
    ++ concatLines (tList.map specTodayLine)

/-- Spec, step 5: the TODO block, present iff `pList` is non-empty, preceded by
two blank lines iff the Yesterday or the Today block is present. -/
def specTodoBlock (yList tList pList : List Task) : String :=
  if pList = [] then ""
  else (if yList = [] ∧ tList = [] then "" else "\n\n") ++ "## TODO\n"
    ++ concatLines (pList.map specTodoLine)

/-! ## Sample values -/

/-- 2024-11-04 05:00:00.000000005 at UTC-05:00. -/
def sampleNow : Time := ⟨1730714400000000005, -18000⟩

/-- A task logged by `wdid do` at `sampleNow`. -/
def sampleTask : Task := ⟨0, "write *report*", sampleNow, none⟩

/-- A task logged by `wdid did` 24 hours before `sampleNow`. -/
def sampleDone : Task :=
  ⟨0, "review PR", sampleNow.Add (Hour * -24), some (sampleNow.Add (Hour * -24))⟩

/-- The table after logging `sampleTask` and then `sampleDone` on a fresh
database. -/
def sampleDB : DB := (AddTask (AddTask DB.empty sampleTask none).1 sampleDone none).1

/-- 2024-11-05 12:00:00 UTC. -/
def sampleNoon : Time := ⟨1730808000000000000, 0⟩

/-- Task A, logged at 2024-11-04 23:30:00 -05:00, which is 2024-11-05 04:30 UTC. -/
def sampleA : Task := ⟨1, "A", ⟨1730781000000000000, -18000⟩, none⟩

/-- Task B, logged at 2024-11-05 01:00:00 UTC. -/
def sampleB : Task := ⟨2, "B", ⟨1730768400000000000, 0⟩, none⟩

/-- Task C, logged at 2024-11-05 22:00:00 -05:00, which is 2024-11-06 03:00 UTC. -/
def sampleC : Task := ⟨3, "C", ⟨1730862000000000000, -18000⟩, none⟩

/-- A table whose tasks were logged under two UTC offsets. -/
def sampleZonesDB : DB := ⟨[sampleA, sampleB, sampleC], 3⟩

/-- A timestamp in a zone 90 seconds east of UTC. -/
def sampleOddZone : Time := ⟨1730808000000005000, 90⟩

/-! ## Calendar lemmas -/

theorem doy_range (doe : Int) (h0 : 0 ≤ doe) (h1 : doe < 146097) :
    0 ≤ (doe - doe / 1460 + doe / 36524 - doe / 146096) / 365 ∧
    (doe - doe / 1460 + doe / 36524 - doe / 146096) / 365 < 400 ∧
    0 ≤ doe - (365 * ((doe - doe / 1460 + doe / 36524 - doe / 146096) / 365)
        + ((doe - doe / 1460 + doe / 36524 - doe / 146096) / 365) / 4
        - ((doe - doe / 1460 + doe / 36524 - doe / 146096) / 365) / 100) ∧
    doe - (365 * ((doe - doe / 1460 + doe / 36524 - doe / 146096) / 365)
        + ((doe - doe / 1460 + doe / 36524 - doe / 146096) / 365) / 4
        - ((doe - doe / 1460 + doe / 36524 - doe / 146096) / 365) / 100) ≤ 365 := by
  have hf : doe / 36524 = 0 ∨ doe / 36524 = 1 ∨ doe / 36524 = 2 ∨ doe / 36524 = 3
      ∨ doe / 36524 = 4 := by omega
  have hg : doe / 146096 = 0 ∨ doe / 146096 = 1 := by omega
  generalize hY : (doe - doe / 1460 + doe / 36524 - doe / 146096) / 365 = yoe at *
  have hy : 0 ≤ yoe ∧ yoe < 400 := by
    rcases hf with hf | hf | hf | hf | hf <;> rcases hg with hg | hg <;> omega
  have hd : yoe / 100 = 0 ∨ yoe / 100 = 1 ∨ yoe / 100 = 2 ∨ yoe / 100 = 3 := by omega
  refine ⟨hy.1, hy.2, ?_, ?_⟩ <;>
    rcases hf with hf | hf | hf | hf | hf <;> rcases hg with hg | hg <;>
      rcases hd with hd | hd | hd | hd <;> omega

/-- The month of a civil date lies in 1..12. -/
theorem civilFromDays_month (z : Int) :
    1 ≤ (civilFromDays z).2.1 ∧ (civilFromDays z).2.1 ≤ 12 := by
  have hdoe : 0 ≤ (z + 719468) - (z + 719468) / 146097 * 146097 ∧
      (z + 719468) - (z + 719468) / 146097 * 146097 < 146097 := by omega
  obtain ⟨_, _, h3, h4⟩ := doy_range _ hdoe.1 hdoe.2
  simp only [civilFromDays]
  generalize (z + 719468) - (z + 719468) / 146097 * 146097 = doe at *
  generalize hO : doe - (365 * ((doe - doe / 1460 + doe / 36524 - doe / 146096) / 365)
        + ((doe - doe / 1460 + doe / 36524 - doe / 146096) / 365) / 4
        - ((doe - doe / 1460 + doe / 36524 - doe / 146096) / 365) / 100) = doy at *
  split <;> omega

/-- Converting a day number to a civil date and back is the identity. -/
theorem daysFromCivil_civilFromDays (z : Int) :
    daysFromCivil (civilFromDays z).1 (civilFromDays z).2.1 (civilFromDays z).2.2 = z := by
  have hdoe : 0 ≤ (z + 719468) - (z + 719468) / 146097 * 146097 ∧
      (z + 719468) - (z + 719468) / 146097 * 146097 < 146097 := by omega
  obtain ⟨h1, h2, h3, h4⟩ := doy_range _ hdoe.1 hdoe.2
  simp only [civilFromDays, daysFromCivil]
  generalize hE : (z + 719468) / 146097 = era at *
  generalize hD : (z + 719468) - era * 146097 = doe at *
  generalize hY : (doe - doe / 1460 + doe / 36524 - doe / 146096) / 365 = yoe at *
  generalize hO : doe - (365 * yoe + yoe / 4 - yoe / 100) = doy at *
  have hmp : 0 ≤ (5 * doy + 2) / 153 ∧ (5 * doy + 2) / 153 ≤ 11 := by omega
  generalize hM : (5 * doy + 2) / 153 = mp at *
  by_cases hlt : mp < 10
  · have e1 : ¬ (mp + 3 ≤ 2) := by omega
    have e2 : mp + 3 > 2 := by omega
    simp only [hlt, if_true, e1, if_false, e2]
    have e3 : (yoe + era * 400) / 400 = era := by omega
    have e4 : yoe + era * 400 - era * 400 = yoe := by omega
    have e5 : mp + 3 - 3 = mp := by omega
    rw [e3, e4, e5]
    omega
  · have e1 : mp - 9 ≤ 2 := by omega
    have e2 : ¬ (mp - 9 > 2) := by omega
    simp only [hlt, if_false, e1, if_true, e2]
    have e3 : (yoe + era * 400 + 1 - 1) / 400 = era := by omega
    have e4 : yoe + era * 400 + 1 - 1 - era * 400 = yoe := by omega
    have e5 : mp - 9 + 9 = mp := by omega
    rw [e3, e4, e5]
    omega

/-! ## Day bounds -/

theorem timeDate_of_date (z h mi sec nsec loc : Int) :
    timeDate (civilFromDays z).1 (civilFromDays z).2.1 (civilFromDays z).2.2 h mi sec nsec loc
      = ⟨(z * 86400 + h * 3600 + mi * 60 + sec - loc) * Second + nsec, loc⟩ := by
  have hm := civilFromDays_month z
  have hr := daysFromCivil_civilFromDays z
  have e1 : ((civilFromDays z).2.1 - 1) / 12 = 0 := by omega
  have e2 : ((civilFromDays z).2.1 - 1) % 12 + 1 = (civilFromDays z).2.1 := by omega
  simp only [timeDate, e1, e2, add_zero, hr]

theorem beginningOfDay_eq (t : Time) :
    beginningOfDay t = ⟨t.dayNumber * nsPerDay - t.offset * Second, t.offset⟩ := by
  have h := timeDate_of_date t.dayNumber 0 0 0 0 t.offset
  simp only [beginningOfDay, Time.Date, Time.Location]
  rw [h]
  simp only [nsPerDay, Second]
  congr 1
  ring

theorem endOfDay_eq (t : Time) :
    endOfDay t = ⟨t.dayNumber * nsPerDay + (nsPerDay - 1) - t.offset * Second, t.offset⟩ := by
  have h := timeDate_of_date t.dayNumber 23 59 59 (Second - 1) t.offset
  simp only [endOfDay, Time.Date, Time.Location]
  rw [h]
  simp only [nsPerDay, Second]
  congr 1
  ring

/-- Every instant lies between the bounds of its own day. -/
theorem day_bounds (c : Time) :
    (beginningOfDay c).ns ≤ c.ns ∧ c.ns ≤ (endOfDay c).ns := by
  rw [beginningOfDay_eq, endOfDay_eq]
  simp only [Time.dayNumber, Time.localNs, nsPerDay, Second]
  omega

/-- The bounds of a day are its first and its last nanosecond on the wall clock
of the same location. -/
theorem day_bounds_civil (d : Time) :
    (beginningOfDay d).Date = d.Date ∧ (beginningOfDay d).Clock = (0, 0, 0) ∧
    (beginningOfDay d).Nanosecond = 0 ∧ (beginningOfDay d).Location = d.Location ∧
    (endOfDay d).Date = d.Date ∧ (endOfDay d).Clock = (23, 59, 59) ∧
    (endOfDay d).Nanosecond = 999999999 ∧ (endOfDay d).Location = d.Location := by
  rw [beginningOfDay_eq, endOfDay_eq]
  generalize hz : d.dayNumber = z
  have b1 : (z * nsPerDay - d.offset * Second + d.offset * Second) = z * 86400000000000 := by
    simp only [nsPerDay, Second]; ring
  have b2 : (z * nsPerDay + (nsPerDay - 1) - d.offset * Second + d.offset * Second)
      = z * 86400000000000 + 86399999999999 := by
    simp only [nsPerDay, Second]; ring
  have c1 : z * 86400000000000 / 1000000000 % 86400 = 0 := by omega
  have c2 : (z * 86400000000000 + 86399999999999) / 1000000000 % 86400 = 86399 := by omega
  have n1 : z * 86400000000000 % 1000000000 = 0 := by omega
  have n2 : (z * 86400000000000 + 86399999999999) % 1000000000 = 999999999 := by omega
  refine ⟨?_, ?_, ?_, rfl, ?_, ?_, ?_, rfl⟩
  · have e : (Time.mk (z * nsPerDay - d.offset * Second) d.offset).dayNumber = z := by
      simp only [Time.dayNumber, Time.localNs, b1]
      simp only [nsPerDay, Second]; omega
    simp only [Time.Date, e, hz]
  · simp only [Time.Clock, Time.localNs, b1]
    simp only [Second, c1]; rfl
  · simp only [Time.Nanosecond, Time.localNs, b1]
    simp only [Second, n1]
  · have e : (Time.mk (z * nsPerDay + (nsPerDay - 1) - d.offset * Second)
        d.offset).dayNumber = z := by
      simp only [Time.dayNumber, Time.localNs, b2]
      simp only [nsPerDay, Second]; omega
    simp only [Time.Date, e, hz]
  · simp only [Time.Clock, Time.localNs, b2]
    simp only [Second, c2]; rfl
  · simp only [Time.Nanosecond, Time.localNs, b2]
    simp only [Second, n2]

/-! ## Stored text -/

theorem digitChar_eq (n : Nat) (h : n < 10) : Nat.digitChar n = Char.ofNat (48 + n) := by
  interval_cases n <;> rfl

theorem digit_toNat (n : Nat) (h : n < 10) : (Char.ofNat (48 + n)).toNat = 48 + n := by
  interval_cases n <;> rfl

theorem digitsFixed_zero (k : Nat) : digitsFixed k 0 = List.replicate k '0' := by
  induction k with
  | zero => rfl
  | succ k ih =>
    simp only [digitsFixed, Nat.zero_div, ih, Nat.zero_mod, Nat.add_zero]
    rw [List.replicate_succ']

theorem toDigitsCore_pad (k : Nat) : ∀ (n fuel : Nat) (ds : List Char), n < 10 ^ (k + 1) →
    n < fuel →
    (Nat.toDigitsCore 10 fuel n ds).length ≤ k + 1 + ds.length ∧
    List.replicate (k + 1 + ds.length - (Nat.toDigitsCore 10 fuel n ds).length) '0'
        ++ Nat.toDigitsCore 10 fuel n ds
      = digitsFixed (k + 1) n ++ ds := by
  induction k with
  | zero =>
    intro n fuel ds hn hf
    obtain ⟨f, rfl⟩ : ∃ f, fuel = f + 1 := ⟨fuel - 1, by omega⟩
    have h0 : n / 10 = 0 := by omega
    have h1 : n % 10 = n := by omega
    simp [Nat.toDigitsCore, h0, digitsFixed, h1, digitChar_eq n (by omega)]
    omega
  | succ k ih =>
    intro n fuel ds hn hf
    obtain ⟨f, rfl⟩ : ∃ f, fuel = f + 1 := ⟨fuel - 1, by omega⟩
    by_cases h0 : n / 10 = 0
    · have h1 : n % 10 = n := by omega
      simp only [Nat.toDigitsCore, h0, if_true, List.length_cons]
      refine ⟨by omega, ?_⟩
      have e : k + 1 + 1 + ds.length - (ds.length + 1) = k + 1 := by omega
      rw [e]
      show _ = digitsFixed (k + 1) (n / 10) ++ [Char.ofNat (48 + n % 10)] ++ ds
      rw [h0, digitsFixed_zero, h1, digitChar_eq n (by omega)]
      simp
    · have hlt : n / 10 < 10 ^ (k + 1) := by
        rw [Nat.div_lt_iff_lt_mul (by norm_num)]
        calc n < 10 ^ (k + 1 + 1) := hn
          _ = 10 ^ (k + 1) * 10 := by ring
      obtain ⟨hl, he⟩ := ih (n / 10) f (Nat.digitChar (n % 10) :: ds) hlt (by omega)
      simp only [Nat.toDigitsCore, h0, if_false]
      simp only [List.length_cons] at hl he
      refine ⟨by omega, ?_⟩
      have e : k + 1 + 1 + ds.length
            - (Nat.toDigitsCore 10 f (n / 10) (Nat.digitChar (n % 10) :: ds)).length
          = k + 1 + (ds.length + 1)
            - (Nat.toDigitsCore 10 f (n / 10) (Nat.digitChar (n % 10) :: ds)).length := by
        omega
      rw [e, he]
      show _ = digitsFixed (k + 1) (n / 10) ++ [Char.ofNat (48 + n % 10)] ++ ds
      rw [digitChar_eq (n % 10) (by omega)]
      simp

/-- Within its width, `appendInt` writes exactly the fixed-width digits. -/
theorem appendInt_data (x : Int) (k : Nat) (h0 : 0 ≤ x) (hk : x.natAbs < 10 ^ (k + 1)) :
    (appendInt x (k + 1)).data = digitsFixed (k + 1) x.natAbs := by
  have hx : ¬ (x < 0) := by omega
  obtain ⟨hl, he⟩ := toDigitsCore_pad k x.natAbs (x.natAbs + 1) [] hk (by omega)
  simp only [List.length_nil, Nat.add_zero, List.append_nil] at hl he
  simp only [appendInt, hx, if_false, String.data_append]
  rw [← he]
  rfl

theorem digitsFixed_mem (k n : Nat) (c : Char) (h : c ∈ digitsFixed k n) :
    48 ≤ c.toNat ∧ c.toNat ≤ 57 := by
  induction k generalizing n with
  | zero => simp [digitsFixed] at h
  | succ k ih =>
    simp only [digitsFixed, List.mem_append, List.mem_singleton] at h
    rcases h with h | h
    · exact ih _ h
    · subst h
      rw [digit_toNat _ (Nat.mod_lt _ (by norm_num))]
      omega

theorem digitsFixed_length (k n : Nat) : (digitsFixed k n).length = k := by
  induction k generalizing n with
  | zero => rfl
  | succ k ih => simp [digitsFixed, ih]

theorem textLe_refl (a : List Char) : textLe a a = true := by
  induction a with
  | nil => rfl
  | cons c cs ih => simp [textLe, ih]

theorem textLe_cons_same (c : Char) (a b : List Char) :
    textLe (c :: a) (c :: b) = textLe a b := by
  simp [textLe]

theorem textLe_append_left (p a b : List Char) : textLe (p ++ a) (p ++ b) = textLe a b := by
  induction p with
  | nil => rfl
  | cons c cs ih => simp [textLe, ih]

/-- Fixed-width decimal fields compare as the numbers they write. -/
theorem textLe_digitsFixed (k : Nat) : ∀ (a b : Nat) (xs ys : List Char), a < 10 ^ k →
    b < 10 ^ k →
    textLe (digitsFixed k a ++ xs) (digitsFixed k b ++ ys)
      = if a < b then true else if b < a then false else textLe xs ys := by
  induction k with
  | zero =>
    intro a b xs ys ha hb
    have ha0 : a = 0 := by simpa using ha
    have hb0 : b = 0 := by simpa using hb
    subst ha0; subst hb0
    simp [digitsFixed]
  | succ k ih =>
    intro a b xs ys ha hb
    have ha1 : a / 10 < 10 ^ k := by
      rw [Nat.div_lt_iff_lt_mul (by norm_num)]
      calc a < 10 ^ (k + 1) := ha
        _ = 10 ^ k * 10 := by ring
    have hb1 : b / 10 < 10 ^ k := by
      rw [Nat.div_lt_iff_lt_mul (by norm_num)]
      calc b < 10 ^ (k + 1) := hb
        _ = 10 ^ k * 10 := by ring
    simp only [digitsFixed, List.append_assoc, List.singleton_append]
    rw [ih (a / 10) (b / 10) _ _ ha1 hb1]
    simp only [textLe, digit_toNat _ (Nat.mod_lt a (by norm_num : 10 > 0)),
      digit_toNat _ (Nat.mod_lt b (by norm_num : 10 > 0))]
    by_cases h1 : a / 10 < b / 10
    · have : a < b := by omega
      simp [h1, this]
    · by_cases h2 : b / 10 < a / 10
      · have h3 : ¬ a < b := by omega
        have h4 : b < a := by omega
        simp [h1, h2, h3, h4]
      · simp only [h1, h2, if_false]
        by_cases h5 : a % 10 < b % 10
        · have : a < b := by omega
          simp [h5, this]
        · by_cases h6 : b % 10 < a % 10
          · have h3 : ¬ a < b := by omega
            have h4 : b < a := by omega
            simp [h6, h3, h4]; omega
          · have h3 : ¬ a < b := by omega
            have h4 : ¬ b < a := by omega
            simp [h5, h6, h3, h4]

theorem zoneText_data (offset : Int) :
    ∃ c rest, (zoneText offset).data = c :: rest ∧ (c.toNat = 43 ∨ c.toNat = 45) := by
  unfold zoneText
  by_cases h : Int.tdiv offset 60 < 0
  · exact ⟨'-', _, by simp only [h, if_true, String.data_append]; rfl, Or.inr rfl⟩
  · exact ⟨'+', _, by simp only [h, if_false, String.data_append]; rfl, Or.inl rfl⟩

theorem appendNano_data (nsec : Int) (h0 : 0 ≤ nsec) (h1 : nsec < 1000000000) :
    (appendNano nsec).data = [] ∨
    ∃ T, (appendNano nsec).data = '.' :: T ∧ T.length ≤ 9 ∧ ∀ c ∈ T, c.toNat ≤ 57 := by
  unfold appendNano
  by_cases h : nsec = 0
  · left; simp [h]
  · right
    refine ⟨((appendInt nsec 9).data.reverse.dropWhile (· == '0')).reverse, ?_, ?_, ?_⟩
    · simp only [h, if_false, String.data_append]; rfl
    · have hd := appendInt_data nsec 8 h0 (by omega)
      rw [List.length_reverse]
      calc _ ≤ (appendInt nsec 9).data.reverse.length :=
            (List.dropWhile_sublist _).length_le
        _ = 9 := by rw [List.length_reverse, hd, digitsFixed_length]
    · intro c hc
      have hd := appendInt_data nsec 8 h0 (by omega)
      rw [List.mem_reverse] at hc
      have hc2 := (List.dropWhile_sublist _).subset hc
      rw [List.mem_reverse, hd] at hc2
      exact (digitsFixed_mem _ _ c hc2).2

theorem textLe_nines (Z : List Char) (s : Char) (rest : List Char) (hZ : Z = s :: rest)
    (hs : s.toNat < 57) : ∀ (k : Nat) (T : List Char), T.length ≤ k → (∀ c ∈ T, c.toNat ≤ 57) →
    textLe (T ++ Z) (List.replicate k '9' ++ Z) = true := by
  intro k
  induction k with
  | zero =>
    intro T hl _
    have : T = [] := List.length_eq_zero.1 (by omega)
    subst this
    simpa using textLe_refl Z
  | succ k ih =>
    intro T hl hT
    cases T with
    | nil =>
      subst hZ
      have : ('9' : Char).toNat = 57 := rfl
      simp [List.replicate_succ, textLe, this, hs]
    | cons c cs =>
      have hc := hT c (by simp)
      have h9 : ('9' : Char).toNat = 57 := rfl
      simp only [List.replicate_succ, List.cons_append, textLe, h9]
      by_cases hlt : c.toNat < 57
      · simp [hlt]
      · have : ¬ (57 < c.toNat) := by omega
        simp only [hlt, this, if_false]
        exact ih cs (by simpa using hl) (fun x hx => hT x (by simp [hx]))

theorem clock_range (t : Time) :
    0 ≤ t.Clock.1 ∧ t.Clock.1 ≤ 23 ∧ 0 ≤ t.Clock.2.1 ∧ t.Clock.2.1 ≤ 59 ∧
    0 ≤ t.Clock.2.2 ∧ t.Clock.2.2 ≤ 59 ∧ 0 ≤ t.Nanosecond ∧ t.Nanosecond < 1000000000 := by
  simp only [Time.Clock, Time.Nanosecond, Second]
  omega

theorem clockText_data (h mi s nsec : Int) (hh : 0 ≤ h ∧ h ≤ 23) (hm : 0 ≤ mi ∧ mi ≤ 59)
    (hs : 0 ≤ s ∧ s ≤ 59) (Z : List Char) :
    (clockText h mi s nsec).data ++ Z
      = digitsFixed 2 h.natAbs ++ (':' :: (digitsFixed 2 mi.natAbs
          ++ (':' :: (digitsFixed 2 s.natAbs ++ ((appendNano nsec).data ++ Z))))) := by
  simp only [clockText, String.data_append, appendInt_data h 1 hh.1 (by omega),
    appendInt_data mi 1 hm.1 (by omega), appendInt_data s 1 hs.1 (by omega),
    List.append_assoc]
  rfl

theorem textLe_clock_lower (h mi s nsec : Int) (hh : 0 ≤ h ∧ h ≤ 23) (hm : 0 ≤ mi ∧ mi ≤ 59)
    (hs : 0 ≤ s ∧ s ≤ 59) (hn : 0 ≤ nsec ∧ nsec < 1000000000) (Z : List Char) (c : Char)
    (rest : List Char) (hZ : Z = c :: rest) (hc : c.toNat = 43 ∨ c.toNat = 45) :
    textLe ((clockText 0 0 0 0).data ++ Z) ((clockText h mi s nsec).data ++ Z) = true := by
  have hlast : textLe ((appendNano 0).data ++ Z) ((appendNano nsec).data ++ Z) = true := by
    rcases appendNano_data nsec hn.1 hn.2 with e | ⟨T, e, _, _⟩
    · rw [e]; exact textLe_refl _
    · rw [e, hZ]
      have hdot : ('.' : Char).toNat = 46 := rfl
      have : c.toNat < 46 := by omega
      simp [appendNano, textLe, hdot, this]
  rw [clockText_data 0 0 0 0 (by omega) (by omega) (by omega),
    clockText_data h mi s nsec hh hm hs]
  rw [textLe_digitsFixed 2 _ _ _ _ (by simp) (by omega), textLe_cons_same,
    textLe_digitsFixed 2 _ _ _ _ (by simp) (by omega), textLe_cons_same,
    textLe_digitsFixed 2 _ _ _ _ (by simp) (by omega), hlast]
  simp

theorem textLe_clock_upper (h mi s nsec : Int) (hh : 0 ≤ h ∧ h ≤ 23) (hm : 0 ≤ mi ∧ mi ≤ 59)
    (hs : 0 ≤ s ∧ s ≤ 59) (hn : 0 ≤ nsec ∧ nsec < 1000000000) (Z : List Char) (c : Char)
    (rest : List Char) (hZ : Z = c :: rest) (hc : c.toNat = 43 ∨ c.toNat = 45) :
    textLe ((clockText h mi s nsec).data ++ Z) ((clockText 23 59 59 999999999).data ++ Z)
      = true := by
  have hmax : (appendNano 999999999).data = '.' :: List.replicate 9 '9' := by decide
  have hdot : ('.' : Char).toNat = 46 := rfl
  have hlast : textLe ((appendNano nsec).data ++ Z) ((appendNano 999999999).data ++ Z)
      = true := by
    rw [hmax]
    rcases appendNano_data nsec hn.1 hn.2 with e | ⟨T, e, hT, hd⟩
    · rw [e, hZ]
      have : c.toNat < 46 := by omega
      simp [textLe, hdot, this]
    · rw [e]
      simp only [List.cons_append, textLe_cons_same]
      exact textLe_nines Z c rest hZ (by omega) 9 T hT hd
  rw [clockText_data 23 59 59 999999999 (by omega) (by omega) (by omega),
    clockText_data h mi s nsec hh hm hs]
  rw [textLe_digitsFixed 2 _ _ _ _ (by omega) (by simp), textLe_cons_same,
    textLe_digitsFixed 2 _ _ _ _ (by omega) (by simp), textLe_cons_same,
    textLe_digitsFixed 2 _ _ _ _ (by omega) (by simp), hlast]
  have h1 : ¬ ((23 : Int).natAbs < h.natAbs) := by omega
  have h2 : ¬ ((59 : Int).natAbs < mi.natAbs) := by omega
  have h3 : ¬ ((59 : Int).natAbs < s.natAbs) := by omega
  simp [h1, h2, h3]
  omega

/-! ## Stored text of a day and of its bounds -/

theorem sqliteText_data (t : Time) :
    (sqliteText t).data
      = (dateText t.Date.1 t.Date.2.1 t.Date.2.2).data
        ++ (' ' :: ((clockText t.Clock.1 t.Clock.2.1 t.Clock.2.2 t.Nanosecond).data
          ++ (zoneText t.offset).data)) := by
  simp only [sqliteText, String.data_append, List.append_assoc]
  rfl

/-- A timestamp on the calendar day of `d`, stored with the offset of `d`, has its
text between the texts of the bounds of the day. -/
theorem textLe_day_bounds (d c : Time) (hoff : c.offset = d.offset) (hdate : c.Date = d.Date) :
    textLe (sqliteText (beginningOfDay d)).data (sqliteText c).data = true ∧
    textLe (sqliteText c).data (sqliteText (endOfDay d)).data = true := by
  obtain ⟨b1, b2, b3, b4, e1, e2, e3, e4⟩ := day_bounds_civil d
  simp only [Time.Location] at b4 e4
  obtain ⟨z, rest, hz, hsign⟩ := zoneText_data d.offset
  obtain ⟨r1, r2, r3, r4, r5, r6, r7, r8⟩ := clock_range c
  rw [sqliteText_data, sqliteText_data c, sqliteText_data (endOfDay d), b1, b2, b3, b4, e1, e2,
    e3, e4, hdate, hoff]
  simp only [textLe_append_left, textLe_cons_same]
  exact ⟨textLe_clock_lower _ _ _ _ ⟨r1, r2⟩ ⟨r3, r4⟩ ⟨r5, r6⟩ ⟨r7, r8⟩ _ z rest hz hsign,
    textLe_clock_upper _ _ _ _ ⟨r1, r2⟩ ⟨r3, r4⟩ ⟨r5, r6⟩ ⟨r7, r8⟩ _ z rest hz hsign⟩

/-- The day of a civil date lies in 1..31. -/
theorem civilFromDays_day (z : Int) :
    1 ≤ (civilFromDays z).2.2 ∧ (civilFromDays z).2.2 ≤ 31 := by
  have hdoe : 0 ≤ (z + 719468) - (z + 719468) / 146097 * 146097 ∧
      (z + 719468) - (z + 719468) / 146097 * 146097 < 146097 := by omega
  obtain ⟨_, _, h3, h4⟩ := doy_range _ hdoe.1 hdoe.2
  simp only [civilFromDays]
  generalize (z + 719468) - (z + 719468) / 146097 * 146097 = doe at *
  generalize hO : doe - (365 * ((doe - doe / 1460 + doe / 36524 - doe / 146096) / 365)
        + ((doe - doe / 1460 + doe / 36524 - doe / 146096) / 365) / 4
        - ((doe - doe / 1460 + doe / 36524 - doe / 146096) / 365) / 100) = doy at *
  omega

theorem civilFromDays_injective (a b : Int) (h : civilFromDays a = civilFromDays b) : a = b := by
  rw [← daysFromCivil_civilFromDays a, ← daysFromCivil_civilFromDays b, h]

theorem dateText_data (y m d : Int) (hy : 0 ≤ y ∧ y ≤ 9999) (hm : 1 ≤ m ∧ m ≤ 12)
    (hd : 1 ≤ d ∧ d ≤ 31) (X : List Char) :
    (dateText y m d).data ++ X
      = digitsFixed 4 y.natAbs ++ ('-' :: (digitsFixed 2 m.natAbs
          ++ ('-' :: (digitsFixed 2 d.natAbs ++ X)))) := by
  simp only [dateText, String.data_append, appendInt_data y 3 hy.1 (by omega),
    appendInt_data m 1 (by omega) (by omega), appendInt_data d 1 (by omega) (by omega),
    List.append_assoc]
  rfl

theorem textLe_date (ya ma da yb mb db : Nat) (hya : ya < 10000) (hyb : yb < 10000)
    (hma : ma < 100) (hmb : mb < 100) (hda : da < 100) (hdb : db < 100) (X Y : List Char)
    (h : textLe (digitsFixed 4 ya ++ ('-' :: (digitsFixed 2 ma ++ ('-' :: (digitsFixed 2 da ++ X)))))
      (digitsFixed 4 yb ++ ('-' :: (digitsFixed 2 mb ++ ('-' :: (digitsFixed 2 db ++ Y))))) = true) :
    ya < yb ∨ (ya = yb ∧ (ma < mb ∨ (ma = mb ∧ da ≤ db))) := by
  rw [textLe_digitsFixed 4 _ _ _ _ (by omega) (by omega), textLe_cons_same,
    textLe_digitsFixed 2 _ _ _ _ (by omega) (by omega), textLe_cons_same,
    textLe_digitsFixed 2 _ _ _ _ (by omega) (by omega)] at h
  by_cases h1 : ya < yb
  · exact Or.inl h1
  · by_cases h2 : yb < ya
    · simp [h1, h2] at h
    · by_cases h3 : ma < mb
      · exact Or.inr ⟨by omega, Or.inl h3⟩
      · by_cases h4 : mb < ma
        · simp [h1, h2, h3, h4] at h
        · by_cases h5 : db < da
          · have h6 : ¬ da < db := by omega
            simp [h1, h2, h3, h4, h5, h6] at h
          · exact Or.inr ⟨by omega, Or.inr ⟨by omega, by omega⟩⟩

/-- With four-digit years, a timestamp whose text lies between the texts of the
bounds of the day of `d` shows the calendar date of `d`. -/
theorem date_of_textLe_day_bounds (d c : Time) (hyd : 0 ≤ d.Year ∧ d.Year ≤ 9999)
    (hyc : 0 ≤ c.Year ∧ c.Year ≤ 9999)
    (hlo : textLe (sqliteText (beginningOfDay d)).data (sqliteText c).data = true)
    (hhi : textLe (sqliteText c).data (sqliteText (endOfDay d)).data = true) :
    c.Date = d.Date := by
  obtain ⟨b1, _, _, _, e1, _, _, _⟩ := day_bounds_civil d
  have mc := civilFromDays_month c.dayNumber
  have dc := civilFromDays_day c.dayNumber
  have md := civilFromDays_month d.dayNumber
  have dd := civilFromDays_day d.dayNumber
  simp only [Time.Year] at hyd hyc
  rw [sqliteText_data, sqliteText_data c, b1] at hlo
  rw [sqliteText_data, sqliteText_data (endOfDay d), e1] at hhi
  simp only [Time.Date] at hlo hhi hyd hyc ⊢
  rw [dateText_data _ _ _ hyd md dd, dateText_data _ _ _ hyc mc dc] at hlo
  rw [dateText_data _ _ _ hyd md dd, dateText_data _ _ _ hyc mc dc] at hhi
  have l1 := textLe_date _ _ _ _ _ _ (by omega) (by omega) (by omega) (by omega) (by omega)
    (by omega) _ _ hlo
  have l2 := textLe_date _ _ _ _ _ _ (by omega) (by omega) (by omega) (by omega) (by omega)
    (by omega) _ _ hhi
  have h1 : (civilFromDays c.dayNumber).1 = (civilFromDays d.dayNumber).1 := by omega
  have h2 : (civilFromDays c.dayNumber).2.1 = (civilFromDays d.dayNumber).2.1 := by omega
  have h3 : (civilFromDays c.dayNumber).2.2 = (civilFromDays d.dayNumber).2.2 := by omega
  exact Prod.ext h1 (Prod.ext h2 h3)

/-- For the offset of `d`, being on the calendar day of `d` is lying between the
bounds of the day as instants. -/
theorem date_eq_iff_between (d c : Time) (hoff : c.offset = d.offset) :
    c.Date = d.Date ↔ (beginningOfDay d).ns ≤ c.ns ∧ c.ns ≤ (endOfDay d).ns := by
  rw [beginningOfDay_eq, endOfDay_eq]
  have hday : c.Date = d.Date ↔ c.dayNumber = d.dayNumber :=
    ⟨civilFromDays_injective _ _, fun h => by simp only [Time.Date, h]⟩
  rw [hday]
  simp only [Time.dayNumber, Time.localNs, nsPerDay, Second, hoff]
  constructor
  · intro h; omega
  · intro h; omega

/-! ## Reading a stored timestamp back -/

/-- A timestamp with a zone of whole minutes within 24 hours of UTC and a
four-digit year is read back as it was written. -/
theorem sqliteScan_eq (t : Time) (h : t.Storable) : sqliteScan t = t := by
  obtain ⟨hoff, ho0, ho1, hy0, hy1⟩ := h
  have hz : Int.tdiv t.offset 60 * 60 = t.offset :=
    Int.tdiv_mul_cancel (Int.dvd_of_emod_eq_zero hoff)
  have hzr : (Int.tdiv t.offset 60).natAbs / 60 ≤ 24 := by omega
  have hd := timeDate_of_date t.dayNumber t.Clock.1 t.Clock.2.1 t.Clock.2.2 t.Nanosecond
    t.offset
  simp only [Time.Year] at hy0 hy1
  have hyr : 0 ≤ t.Date.1 ∧ t.Date.1 ≤ 9999 ∧ (Int.tdiv t.offset 60).natAbs / 60 ≤ 24 :=
    ⟨hy0, hy1, hzr⟩
  simp only [sqliteScan, hyr, and_self, if_true, hz]
  simp only [Time.Date]
  rw [hd]
  cases t with
  | mk ns offset =>
    simp only [Time.Clock, Time.Nanosecond, Time.dayNumber, Time.localNs, nsPerDay, Second]
    congr 1
    omega

theorem scanRow_eq (row : Task) (h1 : row.CreatedAt.Storable)
    (h2 : ∀ c, row.CompletedAt = some c → c.Storable) : scanRow row = row := by
  cases row with
  | mk id desc created completed =>
    cases completed with
    | none => simp only [scanRow, sqliteScan_eq created h1, Option.map_none']
    | some c => simp only [scanRow, sqliteScan_eq created h1, Option.map_some',
        sqliteScan_eq c (h2 c rfl)]

/-! ## Task store: queries -/

theorem tasksForDateWhere_selected (start stop : Time) (t : Task) :
    sqlSelected (tasksForDateWhere start stop t) = true ↔
      textBetween start stop t.CreatedAt ∨
      ∃ c, t.CompletedAt = some c ∧ textBetween start stop c := by
  unfold tasksForDateWhere textBetween
  cases hc : t.CompletedAt with
  | none =>
    cases h1 : textLe (sqliteText start).data (sqliteText t.CreatedAt).data <;>
      cases h2 : textLe (sqliteText t.CreatedAt).data (sqliteText stop).data <;>
        simp [sqlSelected, sqlOr, sqlAnd, sqlGe, sqlLe, h1, h2]
  | some c =>
    cases h1 : textLe (sqliteText start).data (sqliteText t.CreatedAt).data <;>
      cases h2 : textLe (sqliteText t.CreatedAt).data (sqliteText stop).data <;>
        cases h3 : textLe (sqliteText start).data (sqliteText c).data <;>
          cases h4 : textLe (sqliteText c).data (sqliteText stop).data <;>
            simp [sqlSelected, sqlOr, sqlAnd, sqlGe, sqlLe, h1, h2, h3, h4]

theorem tasksForDate_perm (db : DB) (d : Time) :
    ∃ l, TasksForDate db d none = .ok l ∧
      l.Perm ((db.rows.filter fun task =>
        sqlSelected (tasksForDateWhere (beginningOfDay d) (endOfDay d) task)).map scanRow) :=
  ⟨_, rfl, (List.perm_insertionSort _ _).map scanRow⟩

theorem pendingWhere_selected (t : Task) :
    sqlSelected (pendingWhere t) = true ↔ t.CompletedAt = none := by
  unfold pendingWhere
  cases hc : t.CompletedAt <;> simp [sqlSelected, sqlAnd, sqlIsNotNull, sqlIsNull]

/-- C3, as the code has it: with no database error, `TasksForDate d` returns a
list, and a task is in it iff it is a stored row, read back, whose `created_at`
text lies in byte order between the texts of `beginningOfDay d` and `endOfDay d`
or whose `completed_at` is set and has its text between them.  For a timestamp
stored with the UTC offset of `d`, with four-digit years, its text lies between
them iff the timestamp lies between `beginningOfDay d` and `endOfDay d`.  The two
bounds are 00:00:00.000000000 and 23:59:59.999999999 of the calendar day of `d`
in the location of `d`. -/
theorem tasksForDate_returns_iff_stored (db : DB) (d : Time) :
    ∃ l, TasksForDate db d none = .ok l ∧
      (∀ t, t ∈ l ↔ ∃ row ∈ db.rows, t = scanRow row ∧
        (textBetween (beginningOfDay d) (endOfDay d) row.CreatedAt ∨
          ∃ c, row.CompletedAt = some c ∧
            textBetween (beginningOfDay d) (endOfDay d) c)) ∧
      (∀ c : Time, c.offset = d.offset → (0 ≤ c.Year ∧ c.Year ≤ 9999) →
        (0 ≤ d.Year ∧ d.Year ≤ 9999) →
        (textBetween (beginningOfDay d) (endOfDay d) c ↔
          (beginningOfDay d).ns ≤ c.ns ∧ c.ns ≤ (endOfDay d).ns)) ∧
      (beginningOfDay d).Date = d.Date ∧ (beginningOfDay d).Clock = (0, 0, 0) ∧
      (beginningOfDay d).Nanosecond = 0 ∧ (beginningOfDay d).Location = d.Location ∧
      (endOfDay d).Date = d.Date ∧ (endOfDay d).Clock = (23, 59, 59) ∧
      (endOfDay d).Nanosecond = 999999999 ∧ (endOfDay d).Location = d.Location := by
  obtain ⟨l, hl, hperm⟩ := tasksForDate_perm db d
  refine ⟨l, hl, ?_, ?_, day_bounds_civil d⟩
  · intro t
    rw [hperm.mem_iff, List.mem_map]
    constructor
    · rintro ⟨row, hrow, rfl⟩
      rw [List.mem_filter, tasksForDateWhere_selected] at hrow
      exact ⟨row, hrow.1, rfl, hrow.2⟩
    · rintro ⟨row, hrow, rfl, hsel⟩
      exact ⟨row, List.mem_filter.2 ⟨hrow, (tasksForDateWhere_selected _ _ _).2 hsel⟩, rfl⟩
  · intro c hoff hyc hyd
    rw [← date_eq_iff_between d c hoff]
    constructor
    · intro h
      exact date_of_textLe_day_bounds d c hyd hyc h.1 h.2
    · intro h
      exact textLe_day_bounds d c hoff h

/-- C3 fails on the code for rows stored under another UTC offset: asked for
2024-11-05 in UTC, `TasksForDate` returns task C, created outside the day (at
2024-11-06 03:00 UTC, written as 2024-11-05 22:00 -05:00), and does not return
task A, created within the day (at 2024-11-05 04:30 UTC, written as 2024-11-04
23:30 -05:00). -/
theorem tasksForDate_other_offset_counterexample :
    TasksForDate sampleZonesDB sampleNoon none = .ok [sampleB, sampleC] ∧
    sampleC ∈ sampleZonesDB.rows ∧ sampleC.CompletedAt = none ∧
    (endOfDay sampleNoon).ns < sampleC.CreatedAt.ns ∧
    sampleA ∈ sampleZonesDB.rows ∧
    (beginningOfDay sampleNoon).ns ≤ sampleA.CreatedAt.ns ∧
    sampleA.CreatedAt.ns ≤ (endOfDay sampleNoon).ns ∧
    sampleA ∉ [sampleB, sampleC] := by
  refine ⟨rfl, by decide, rfl, by decide, by decide, by decide, by decide, by decide⟩

/-- C4: on a well-formed table, after `AddTask t` succeeds, `TasksForDate
t.CreatedAt` returns a list in which exactly one row bears the id given to the
added task, and that row is the added task as read back from its stored text,
whether or not its `CompletedAt` lies in the same day; the added task is read
back unchanged when its timestamps have zones of whole minutes within 24 hours
of UTC and four-digit years.  Every timestamp `c` satisfies `beginningOfDay c <= c <= endOfDay c`, as
instants and as stored texts. -/
theorem addTask_then_tasksForDate_once (db : DB) (t : Task) (dbErr : Option String)
    (hwf : db.WF) (hok : (AddTask db t dbErr).2 = .ok ()) :
    (∃ l, TasksForDate (AddTask db t dbErr).1 t.CreatedAt none = .ok l ∧
      l.filter (fun row => row.ID = db.seq + 1) = [scanRow { t with ID := db.seq + 1 }] ∧
      l.count (scanRow { t with ID := db.seq + 1 }) = 1) ∧
    (t.CreatedAt.Storable → (∀ c, t.CompletedAt = some c → c.Storable) →
      scanRow { t with ID := db.seq + 1 } = { t with ID := db.seq + 1 }) ∧
    (∀ c : Time, (beginningOfDay c).ns ≤ c.ns ∧ c.ns ≤ (endOfDay c).ns) ∧
    ∀ c : Time, textBetween (beginningOfDay c) (endOfDay c) c := by
  refine ⟨?_, fun h1 h2 => scanRow_eq _ h1 h2, day_bounds,
    fun c => textLe_day_bounds c c rfl rfl⟩
  cases dbErr with
  | some err => simp [AddTask] at hok
  | none =>
    obtain ⟨l, hl, hperm⟩ := tasksForDate_perm (AddTask db t none).1 t.CreatedAt
    have hnew : sqlSelected (tasksForDateWhere (beginningOfDay t.CreatedAt)
        (endOfDay t.CreatedAt) { t with ID := db.seq + 1 }) = true :=
      (tasksForDateWhere_selected _ _ _).2
        (Or.inl (textLe_day_bounds t.CreatedAt t.CreatedAt rfl rfl))
    have hold : ∀ row ∈ db.rows, ¬ (row.ID = db.seq + 1) := by
      intro row hrow h
      have := hwf.2 row hrow
      omega
    have hfilter : l.filter (fun row => row.ID = db.seq + 1)
        = [scanRow { t with ID := db.seq + 1 }] := by
      have hp := hperm.filter (fun row => decide (row.ID = db.seq + 1))
      simp only [AddTask, List.filter_append, List.filter_cons, List.filter_nil, hnew,
        if_true, List.map_append, List.map_cons, List.map_nil, scanRow, decide_True] at hp
      have hnone : List.filter (fun row => decide (row.ID = db.seq + 1))
          (List.map scanRow (List.filter (fun task => sqlSelected (tasksForDateWhere
            (beginningOfDay t.CreatedAt) (endOfDay t.CreatedAt) task)) db.rows)) = [] := by
        rw [List.filter_eq_nil_iff]
        intro row hrow
        obtain ⟨old, hmem, rfl⟩ := List.mem_map.1 hrow
        have := hold old (List.mem_filter.1 hmem).1
        simpa [scanRow] using this
      simp only [scanRow] at hnone
      rw [hnone, List.nil_append] at hp
      exact List.perm_singleton.1 hp
    refine ⟨l, hl, hfilter, ?_⟩
    have hc : l.count (scanRow { t with ID := db.seq + 1 })
        = (l.filter (fun row => row.ID = db.seq + 1)).count
            (scanRow { t with ID := db.seq + 1 }) := by
      rw [List.count_filter]
      simp [scanRow]
    rw [hc, hfilter]
    simp

/-- Witness for C4: a task whose `CompletedAt` equals its `CreatedAt`, logged in
a zone 90 seconds east of UTC, added to a table that already holds another
task; it is read back 30 seconds later in a zone of one minute. -/
theorem addTask_then_tasksForDate_once_witness :
    (AddTask DB.empty sampleTask none).1.WF ∧
    (AddTask (AddTask DB.empty sampleTask none).1
      ⟨0, "odd zone", sampleOddZone, some sampleOddZone⟩ none).2 = .ok () ∧
    TasksForDate (AddTask (AddTask DB.empty sampleTask none).1
        ⟨0, "odd zone", sampleOddZone, some sampleOddZone⟩ none).1 sampleOddZone none
      = .ok [⟨2, "odd zone", ⟨1730808030000005000, 60⟩, some ⟨1730808030000005000, 60⟩⟩] ∧
    ∃ l, TasksForDate (AddTask (AddTask DB.empty sampleTask none).1
        ⟨0, "odd zone", sampleOddZone, some sampleOddZone⟩ none).1 sampleOddZone none
        = .ok l ∧
      l.filter (fun row => row.ID = (AddTask DB.empty sampleTask none).1.seq + 1)
        = [scanRow { (Task.mk 0 "odd zone" sampleOddZone (some sampleOddZone)) with
            ID := (AddTask DB.empty sampleTask none).1.seq + 1 }] ∧
      l.count (scanRow { (Task.mk 0 "odd zone" sampleOddZone (some sampleOddZone)) with
            ID := (AddTask DB.empty sampleTask none).1.seq + 1 }) = 1 :=
  ⟨by simp [DB.WF, DB.empty, AddTask], rfl, rfl,
    (addTask_then_tasksForDate_once (AddTask DB.empty sampleTask none).1
      ⟨0, "odd zone", sampleOddZone, some sampleOddZone⟩ none
      (by simp [DB.WF, DB.empty, AddTask]) rfl).1⟩

/-- C7: with no database error, `PendingTasks` returns a list, and a task is in
it iff it is a stored row with no `CompletedAt`, read back; every returned task
has no `CompletedAt`; when the stored rows are read back unchanged, a task is
returned iff it is stored and has no `CompletedAt`; a table holding the same
rows in another order returns the same tasks. -/
theorem pendingTasks_returns_iff (db : DB) :
    ∃ l, PendingTasks db none = .ok l ∧
      (∀ t, t ∈ l ↔ ∃ row ∈ db.rows, row.CompletedAt = none ∧ t = scanRow row) ∧
      (∀ t ∈ l, t.CompletedAt = none) ∧
      ((∀ row ∈ db.rows, scanRow row = row) →
        ∀ t, t ∈ l ↔ t ∈ db.rows ∧ t.CompletedAt = none) ∧
      ∀ db2 : DB, db2.rows.Perm db.rows →
        ∃ l2, PendingTasks db2 none = .ok l2 ∧ l2.Perm l ∧
          ∀ t, t ∈ l2 ↔ ∃ row ∈ db.rows, row.CompletedAt = none ∧ t = scanRow row := by
  have hmem : ∀ (rows : List Task) (t : Task),
      t ∈ (rows.filter fun task => sqlSelected (pendingWhere task)).map scanRow ↔
        ∃ row ∈ rows, row.CompletedAt = none ∧ t = scanRow row := by
    intro rows t
    rw [List.mem_map]
    constructor
    · rintro ⟨row, hrow, rfl⟩
      rw [List.mem_filter, pendingWhere_selected] at hrow
      exact ⟨row, hrow.1, hrow.2, rfl⟩
    · rintro ⟨row, hrow, hnone, rfl⟩
      exact ⟨row, List.mem_filter.2 ⟨hrow, (pendingWhere_selected row).2 hnone⟩, rfl⟩
  refine ⟨_, rfl, hmem db.rows, ?_, ?_, ?_⟩
  · intro t ht
    obtain ⟨row, _, hnone, rfl⟩ := (hmem db.rows t).1 ht
    simp [scanRow, hnone]
  · intro hscan t
    rw [hmem]
    constructor
    · rintro ⟨row, hrow, hnone, rfl⟩
      rw [hscan row hrow]
      exact ⟨hrow, hnone⟩
    · rintro ⟨hrow, hnone⟩
      exact ⟨t, hrow, hnone, (hscan t hrow).symm⟩
  · intro db2 hperm
    refine ⟨_, rfl, (hperm.filter _).map scanRow, ?_⟩
    intro t
    rw [hmem]
    constructor
    · rintro ⟨row, hrow, h⟩
      exact ⟨row, hperm.mem_iff.1 hrow, h⟩
    · rintro ⟨row, hrow, h⟩
      exact ⟨row, hperm.mem_iff.2 hrow, h⟩

/-! ## Task store: batch updates -/

theorem sqlxIn_of_ne_nil (ids : List Int) (h : ids ≠ []) : sqlxIn ids = .ok ids := by
  cases ids with
  | nil => exact absurd rfl h
  | cons i rest => rfl

theorem completeRow_eq (now : Time) (ids : List Int) (t : Task) :
    completeRow now ids t =
      if (t.ID : Int) ∈ ids ∧ t.CompletedAt = none then { t with CompletedAt := some now }
      else t := by
  unfold completeRow
  cases hc : t.CompletedAt <;> by_cases hi : (t.ID : Int) ∈ ids <;>
    simp [sqlSelected, sqlAnd, sqlIn, sqlIsNull, hi]

theorem completeRow_completed (now : Time) (ids : List Int) (t : Task)
    (h : t.CompletedAt ≠ none) : completeRow now ids t = t := by
  rw [completeRow_eq]
  simp [h]

theorem completeRow_twice (T1 T2 : Time) (ids : List Int) (t : Task) :
    completeRow T2 ids (completeRow T1 ids t) = completeRow T1 ids t := by
  by_cases h : (t.ID : Int) ∈ ids ∧ t.CompletedAt = none
  · rw [completeRow_eq T1, if_pos h]
    exact completeRow_completed _ _ _ (by simp)
  · rw [completeRow_eq T1, if_neg h, completeRow_eq T2, if_neg h]

theorem completeTasks_rows (db : DB) (now : Time) (ids : List Int) (dbErr : Option String) :
    (CompleteTasks db now ids dbErr).1.seq = db.seq ∧
    ((CompleteTasks db now ids dbErr).1.rows = db.rows ∨
      (CompleteTasks db now ids dbErr).1.rows = db.rows.map (completeRow now ids)) := by
  cases ids with
  | nil => exact ⟨rfl, Or.inl rfl⟩
  | cons i rest =>
    cases dbErr with
    | some err => exact ⟨rfl, Or.inl rfl⟩
    | none => exact ⟨rfl, Or.inr rfl⟩

/-- C5: running `CompleteTasks ids` at `T1` and then again at `T2` leaves the
table as the run at `T1` left it, and any run of `CompleteTasks` leaves every row
whose `CompletedAt` is already set unchanged. -/
theorem completeTasks_idempotent (db : DB) (ids : List Int) (T1 T2 : Time)
    (dbErr2 : Option String) :
    (CompleteTasks (CompleteTasks db T1 ids none).1 T2 ids dbErr2).1
        = (CompleteTasks db T1 ids none).1 ∧
    ∀ (now : Time) (ids2 : List Int) (dbErr : Option String),
      List.Forall₂ (fun old new => old.CompletedAt ≠ none → new = old)
        db.rows (CompleteTasks db now ids2 dbErr).1.rows := by
  constructor
  · cases ids with
    | nil => rfl
    | cons i rest =>
      cases dbErr2 with
      | some err => rfl
      | none =>
        simp only [CompleteTasks, sqlxIn, List.isEmpty_cons, Bool.false_eq_true, if_false,
          List.map_map]
        congr 1
        apply List.map_congr_left
        intro t _
        exact completeRow_twice T1 T2 _ t
  · intro now ids2 dbErr
    rcases (completeTasks_rows db now ids2 dbErr).2 with h | h
    · rw [h, List.forall₂_same]
      intro t _ _
      rfl
    · rw [h, List.forall₂_map_right_iff, List.forall₂_same]
      intro t _ hc
      exact completeRow_completed now ids2 t hc

/-- C6: for an id list that holds the id of a stored task and an id of no stored
task, and with no database error, `CompleteTasks` succeeds, keeps every row in
place with its id, description and `CreatedAt`, and sets `CompletedAt` to the one
timestamp `now` on exactly the rows that are listed and pending; `DeleteTasks`
succeeds and keeps, unchanged and in order, exactly the rows whose id is not
listed. -/
theorem completeTasks_deleteTasks_mixed_ids (db : DB) (now : Time) (ids : List Int)
    (_hknown : ∃ t ∈ db.rows, (t.ID : Int) ∈ ids)
    (hunknown : ∃ i ∈ ids, ∀ t ∈ db.rows, (t.ID : Int) ≠ i) :
    (CompleteTasks db now ids none).2 = .ok () ∧
    (CompleteTasks db now ids none).1.seq = db.seq ∧
    List.Forall₂
      (fun old new =>
        new.ID = old.ID ∧ new.Description = old.Description ∧
        new.CreatedAt = old.CreatedAt ∧
        new.CompletedAt =
          if (old.ID : Int) ∈ ids ∧ old.CompletedAt = none then some now
          else old.CompletedAt)
      db.rows (CompleteTasks db now ids none).1.rows ∧
    (DeleteTasks db ids none).2 = .ok () ∧
    (DeleteTasks db ids none).1.seq = db.seq ∧
    (DeleteTasks db ids none).1.rows = db.rows.filter (fun t => decide ((t.ID : Int) ∉ ids)) := by
  obtain ⟨i, hi, _⟩ := hunknown
  have hne : ids ≠ [] := List.ne_nil_of_mem hi
  have hin := sqlxIn_of_ne_nil ids hne
  refine ⟨?_, ?_, ?_, ?_, ?_, ?_⟩
  · simp only [CompleteTasks, hin]
  · simp only [CompleteTasks, hin]
  · simp only [CompleteTasks, hin]
    rw [List.forall₂_map_right_iff, List.forall₂_same]
    intro t _
    rw [completeRow_eq]
    by_cases h : (t.ID : Int) ∈ ids ∧ t.CompletedAt = none
    · simp only [if_pos h, and_self]
    · simp only [if_neg h, and_self]
  · simp only [DeleteTasks, hin]
  · simp only [DeleteTasks, hin]
  · simp only [DeleteTasks, hin]
    apply List.filter_congr
    intro t _
    by_cases h : (t.ID : Int) ∈ ids <;> simp [sqlSelected, sqlIn, h]

/-- Witness for C6: ids 1 (stored, pending) and 99 (not stored) on the sample
table. -/
theorem completeTasks_deleteTasks_mixed_ids_witness :
    (∃ t ∈ sampleDB.rows, (t.ID : Int) ∈ [1, 99]) ∧
    (∃ i ∈ [1, 99], ∀ t ∈ sampleDB.rows, (t.ID : Int) ≠ i) ∧
    ((CompleteTasks sampleDB sampleNow [1, 99] none).2 = .ok () ∧
    (CompleteTasks sampleDB sampleNow [1, 99] none).1.seq = sampleDB.seq ∧
    List.Forall₂
      (fun old new =>
        new.ID = old.ID ∧ new.Description = old.Description ∧
        new.CreatedAt = old.CreatedAt ∧
        new.CompletedAt =
          if (old.ID : Int) ∈ [1, 99] ∧ old.CompletedAt = none then some sampleNow
          else old.CompletedAt)
      sampleDB.rows (CompleteTasks sampleDB sampleNow [1, 99] none).1.rows ∧
    (DeleteTasks sampleDB [1, 99] none).2 = .ok () ∧
    (DeleteTasks sampleDB [1, 99] none).1.seq = sampleDB.seq ∧
    (DeleteTasks sampleDB [1, 99] none).1.rows
      = sampleDB.rows.filter (fun t => decide ((t.ID : Int) ∉ [1, 99]))) :=
  ⟨⟨{ sampleTask with ID := 1 }, by simp [sampleDB, AddTask, DB.empty], by simp⟩,
    ⟨99, by simp, by simp [sampleDB, AddTask, DB.empty]⟩,
    completeTasks_deleteTasks_mixed_ids sampleDB sampleNow [1, 99]
      ⟨{ sampleTask with ID := 1 }, by simp [sampleDB, AddTask, DB.empty], by simp⟩
      ⟨99, by simp, by simp [sampleDB, AddTask, DB.empty]⟩⟩

/-- C9, as the code has it: for a non-empty id list, whether or not its ids are
stored, `CompleteTasks` and `DeleteTasks` return no error when the database
reports none. -/
theorem completeTasks_deleteTasks_ok_of_nonempty (db : DB) (now : Time) (ids : List Int)
    (hne : ids ≠ []) :
    (CompleteTasks db now ids none).2 = .ok () ∧ (DeleteTasks db ids none).2 = .ok () := by
  have hin := sqlxIn_of_ne_nil ids hne
  constructor
  · simp only [CompleteTasks, hin]
  · simp only [DeleteTasks, hin]

/-- Witness for C9: a list holding only the id of no stored task. -/
theorem completeTasks_deleteTasks_ok_of_nonempty_witness :
    ([99] : List Int) ≠ [] ∧ (∀ t ∈ sampleDB.rows, (t.ID : Int) ∉ [99]) ∧
    ((CompleteTasks sampleDB sampleNow [99] none).2 = .ok () ∧
      (DeleteTasks sampleDB [99] none).2 = .ok ()) :=
  ⟨by simp, by simp [sampleDB, AddTask, DB.empty],
    completeTasks_deleteTasks_ok_of_nonempty sampleDB sampleNow [99] (by simp)⟩

/-- C9 fails for the empty id list: when every argument is malformed the id list
is empty, and `CompleteTasks` and `DeleteTasks` return the error of `sqlx.In`
although the database reports none. -/
theorem completeTasks_deleteTasks_empty_ids_error :
    stringSliceToInt64 ["abc", "1x"] = [] ∧
    (CompleteTasks sampleDB sampleNow (stringSliceToInt64 ["abc", "1x"]) none).2
      = .error "empty slice passed to 'in' query" ∧
    (CompleteTasks sampleDB sampleNow [] none).2 ≠ .ok () ∧
    (DeleteTasks sampleDB (stringSliceToInt64 ["abc", "1x"]) none).2
      = .error "empty slice passed to 'in' query" ∧
    (DeleteTasks sampleDB [] none).2 ≠ .ok () := by
  have h : stringSliceToInt64 ["abc", "1x"] = [] := by decide
  refine ⟨h, ?_, ?_, ?_, ?_⟩
  · rw [h]; rfl
  · intro hc; cases hc
  · rw [h]; rfl
  · intro hc; cases hc

/-- C10 fails on the code: when the database reports an error for the UPDATE or
the DELETE statement of a non-empty id list, `CompleteTasks` and `DeleteTasks`
panic and return nothing to the caller. -/
theorem completeTasks_deleteTasks_panic_on_db_error (db : DB) (now : Time) (i : Int)
    (rest : List Int) (err : String) :
    CompleteTasks db now (i :: rest) (some err) = (db, .panic err) ∧
    DeleteTasks db (i :: rest) (some err) = (db, .panic err) :=
  ⟨rfl, rfl⟩

/-! ## The table invariant is kept by every operation -/

theorem wf_empty : DB.empty.WF := by
  simp [DB.WF, DB.empty]

theorem addTask_wf (db : DB) (t : Task) (dbErr : Option String) (h : db.WF) :
    (AddTask db t dbErr).1.WF := by
  cases dbErr with
  | some err => exact h
  | none =>
    obtain ⟨hn, hle⟩ := h
    constructor
    · simp only [AddTask, List.map_append, List.map_cons, List.map_nil]
      rw [List.nodup_append]
      refine ⟨hn, List.nodup_singleton _, ?_⟩
      intro a ha hb
      obtain ⟨row, hrow, rfl⟩ := List.mem_map.1 ha
      have := hle row hrow
      simp only [List.mem_singleton] at hb
      omega
    · intro row hrow
      simp only [AddTask, List.mem_append, List.mem_singleton] at hrow
      rcases hrow with hrow | hrow
      · have := hle row hrow
        simp only [AddTask]
        omega
      · subst hrow
        exact Nat.le_refl _

theorem completeRow_ID (now : Time) (ids : List Int) (t : Task) :
    (completeRow now ids t).ID = t.ID := by
  rw [completeRow_eq]
  split <;> rfl

theorem completeTasks_wf (db : DB) (now : Time) (ids : List Int) (dbErr : Option String)
    (h : db.WF) : (CompleteTasks db now ids dbErr).1.WF := by
  obtain ⟨hseq, hrows⟩ := completeTasks_rows db now ids dbErr
  rcases hrows with hr | hr
  · exact ⟨by rw [hr]; exact h.1, by rw [hr, hseq]; exact h.2⟩
  · have hid : (db.rows.map (completeRow now ids)).map Task.ID = db.rows.map Task.ID := by
      rw [List.map_map]
      apply List.map_congr_left
      intro t _
      exact completeRow_ID now ids t
    constructor
    · rw [hr, hid]; exact h.1
    · intro row hrow
      rw [hr] at hrow
      obtain ⟨old, hold, rfl⟩ := List.mem_map.1 hrow
      rw [completeRow_ID, hseq]
      exact h.2 old hold

theorem deleteTasks_wf (db : DB) (ids : List Int) (dbErr : Option String) (h : db.WF) :
    (DeleteTasks db ids dbErr).1.WF := by
  cases ids with
  | nil => exact h
  | cons i rest =>
    cases dbErr with
    | some err => exact h
    | none =>
      constructor
      · exact h.1.sublist ((List.filter_sublist _).map Task.ID)
      · intro row hrow
        exact h.2 row (List.mem_filter.1 hrow).1

/-! ## Report generator -/

theorem yesterdayStep_eq (buf : String) (t : Task) :
    yesterdayStep buf t = buf ++ specYesterdayLine t := by
  unfold yesterdayStep specYesterdayLine sameCalendarDay
  cases t.CompletedAt with
  | none => simp only [String.append_assoc]
  | some c =>
    by_cases h : c.Year = t.CreatedAt.Year ∧ c.YearDay = t.CreatedAt.YearDay
    · simp only [if_pos h, String.append_assoc]
    · simp only [if_neg h, String.append_assoc]

theorem todayStep_eq (buf : String) (t : Task) : todayStep buf t = buf ++ specTodayLine t := by
  simp only [todayStep, specTodayLine, String.append_assoc]

theorem pendingStep_eq (buf : String) (t : Task) :
    pendingStep buf t = buf ++ specTodoLine t := by
  simp only [pendingStep, specTodoLine, String.append_assoc]

theorem foldl_lines (step : String → Task → String) (line : Task → String)
    (h : ∀ buf t, step buf t = buf ++ line t) (l : List Task) (buf : String) :
    l.foldl step buf = buf ++ concatLines (l.map line) := by
  induction l generalizing buf with
  | nil => simp [concatLines]
  | cons t ts ih =>
    simp only [List.foldl_cons, List.map_cons, concatLines, ih, h, String.append_assoc]

theorem genStandup_eq_blocks (r : TaskRepository) (now : Time) (yList tList pList : List Task)
    (hy : r.TasksForDate (now.Add (Hour * -24)) = .ok yList)
    (ht : r.TasksForDate now = .ok tList) (hp : r.PendingTasks = .ok pList) :
    genStandup r now =
      (specYesterdayBlock (now.Add (Hour * -24)) yList ++ specTodayBlock yList tList
        ++ specTodoBlock yList tList pList, none) := by
  simp only [genStandup, hy, ht, hp, foldl_lines _ _ yesterdayStep_eq,
    foldl_lines _ _ todayStep_eq, foldl_lines _ _ pendingStep_eq]
  cases yList <;> cases tList <;> cases pList <;>
    simp [specYesterdayBlock, specTodayBlock, specTodoBlock, concatLines, String.append_assoc]

/-- C1: when the three queries succeed and `TasksForDate (now - 24h)` returns
`yList`, the report is the Yesterday header (if `yList` is non-empty), then one
line per task of `yList` in order, then the Today and TODO blocks; the line of a
task is `- [STARTED] d (id)` when `CompletedAt` is unset, `- d (id)` when
`CompletedAt` has the year and day of year of `CreatedAt`, and
`- [COMPLETED] d (id)` otherwise. -/
theorem genStandup_yesterday_lines (r : TaskRepository) (now : Time)
    (yList tList pList : List Task)
    (hy : r.TasksForDate (now.Add (Hour * -24)) = .ok yList)
    (ht : r.TasksForDate now = .ok tList) (hp : r.PendingTasks = .ok pList) :
    genStandup r now =
      ((if yList = [] then ""
          else "## Yesterday (" ++ (now.Add (Hour * -24)).FormatMonJan2 ++ ")\n")
        ++ concatLines (yList.map specYesterdayLine)
        ++ (specTodayBlock yList tList ++ specTodoBlock yList tList pList), none) ∧
    ∀ t : Task,
      (t.CompletedAt = none →
        specYesterdayLine t
          = "- [STARTED] " ++ t.Description ++ " (" ++ toString t.ID ++ ")\n") ∧
      (∀ c, t.CompletedAt = some c →
        (c.Year = t.CreatedAt.Year ∧ c.YearDay = t.CreatedAt.YearDay →
          specYesterdayLine t = "- " ++ t.Description ++ " (" ++ toString t.ID ++ ")\n") ∧
        (¬ (c.Year = t.CreatedAt.Year ∧ c.YearDay = t.CreatedAt.YearDay) →
          specYesterdayLine t
            = "- [COMPLETED] " ++ t.Description ++ " (" ++ toString t.ID ++ ")\n")) := by
  constructor
  · rw [genStandup_eq_blocks r now yList tList pList hy ht hp]
    cases yList with
    | nil => simp [specYesterdayBlock, concatLines]
    | cons t ts => simp [specYesterdayBlock, String.append_assoc]
  · intro t
    refine ⟨?_, ?_⟩
    · intro h
      simp only [specYesterdayLine, h]
    · intro c h
      constructor
      · intro hs
        simp only [specYesterdayLine, h, sameCalendarDay, if_pos hs]
      · intro hs
        simp only [specYesterdayLine, h, sameCalendarDay, if_neg hs]

/-- Witness for C1: the report over the sample table at `sampleNow`. -/
theorem genStandup_yesterday_lines_witness :
    (sqlRepository sampleDB none).TasksForDate (sampleNow.Add (Hour * -24))
      = .ok [{ sampleDone with ID := 2 }] ∧
    (sqlRepository sampleDB none).TasksForDate sampleNow = .ok [{ sampleTask with ID := 1 }] ∧
    (sqlRepository sampleDB none).PendingTasks = .ok [{ sampleTask with ID := 1 }] ∧
    genStandup (sqlRepository sampleDB none) sampleNow =
      ("## Yesterday (Sun Nov 3, 2024)\n- review PR (2)\n\n\n## Today\n- write *report* (1)\n\n\n## TODO\n- write *report* (1; started on 2024-11-04)\n",
        none) :=
  ⟨rfl, rfl, rfl,
    (genStandup_yesterday_lines (sqlRepository sampleDB none) sampleNow
      [{ sampleDone with ID := 2 }] [{ sampleTask with ID := 1 }]
      [{ sampleTask with ID := 1 }] rfl rfl rfl).1.trans rfl⟩

/-- C2: when the three queries succeed with `yList`, `tList` and `pList`, the
report is the Yesterday block, the Today block and the TODO block in that order,
each present iff its list is non-empty, with two blank lines before `## Today`
iff `yList` is non-empty and before `## TODO` iff `yList` or `tList` is
non-empty; Today lines carry no status tag, TODO lines carry the date of
`CreatedAt`; with three empty lists the report is the empty string. -/
theorem genStandup_report_layout (r : TaskRepository) (now : Time)
    (yList tList pList : List Task)
    (hy : r.TasksForDate (now.Add (Hour * -24)) = .ok yList)
    (ht : r.TasksForDate now = .ok tList) (hp : r.PendingTasks = .ok pList) :
    genStandup r now =
      ((if yList = [] then ""
          else "## Yesterday (" ++ (now.Add (Hour * -24)).FormatMonJan2 ++ ")\n"
            ++ concatLines (yList.map specYesterdayLine))
        ++ (if tList = [] then ""
          else (if yList = [] then "" else "\n\n") ++ "## Today\n"
            ++ concatLines (tList.map fun t =>
                "- " ++ t.Description ++ " (" ++ toString t.ID ++ ")\n"))
        ++ (if pList = [] then ""
          else (if yList = [] ∧ tList = [] then "" else "\n\n") ++ "## TODO\n"
            ++ concatLines (pList.map fun t =>
                "- " ++ t.Description ++ " (" ++ toString t.ID ++ "; started on "
                  ++ t.CreatedAt.FormatISODate ++ ")\n")), none) ∧
    (yList = [] → tList = [] → pList = [] → genStandup r now = ("", none)) := by
  have h := genStandup_eq_blocks r now yList tList pList hy ht hp
  constructor
  · rw [h]
    rfl
  · intro h1 h2 h3
    rw [h, h1, h2, h3]
    rfl

/-- Witness for C2: the report over a table holding one pending task logged
today, which has no Yesterday block. -/
theorem genStandup_report_layout_witness :
    (sqlRepository (AddTask DB.empty sampleTask none).1 none).TasksForDate
      (sampleNow.Add (Hour * -24)) = .ok [] ∧
    (sqlRepository (AddTask DB.empty sampleTask none).1 none).TasksForDate sampleNow
      = .ok [{ sampleTask with ID := 1 }] ∧
    (sqlRepository (AddTask DB.empty sampleTask none).1 none).PendingTasks
      = .ok [{ sampleTask with ID := 1 }] ∧
    genStandup (sqlRepository (AddTask DB.empty sampleTask none).1 none) sampleNow =
      ("## Today\n- write *report* (1)\n\n\n## TODO\n- write *report* (1; started on 2024-11-04)\n",
        none) :=
  ⟨rfl, rfl, rfl,
    (genStandup_report_layout (sqlRepository (AddTask DB.empty sampleTask none).1 none)
      sampleNow [] [{ sampleTask with ID := 1 }] [{ sampleTask with ID := 1 }]
      rfl rfl rfl).1.trans rfl⟩

/-- C8 fails on the code: when the two `TasksForDate` queries succeed and
`PendingTasks` fails, `genStandup` returns the error together with the string
`nil`, not the empty string. -/
theorem genStandup_pending_error_returns_nil :
    genStandup ⟨fun t => TasksForDate sampleDB t none,
        PendingTasks sampleDB (some "disk I/O error")⟩ sampleNow
      = ("nil", some "disk I/O error") ∧
    genStandup (sqlRepository sampleDB (some "disk I/O error")) sampleNow
      = ("", some "error fetching tasks: disk I/O error") :=
  ⟨rfl, rfl⟩

end Wdid
